import Mathlib

/-!
# Verification of the revel-clinvar ETL pipeline

A shallow embedding of the core logic of the `revel-clinvar` repository:

* `src/clinvar.py` — the `Clinvar` class: the VCF meta-information parser,
  the INFO annotation-string decoder, and the column-derivation stage
  (GENE, MOLECULAR CONSEQUENCE, CLASS, IS_CONFLICTING);
* `src/create_master_table.py` — the relational pipeline assembling the
  master table out of the REVEL, ClinVar and ClinGen dosage tables.

Pandas dataframes are modelled as a list of column names together with a
list of rows, each row a list of cells; a cell is null, a string, or a
boolean.  Python's `str.split(sep)` for single-character separators is
modelled by `splitChar` over `List Char`; a fallible Python function
(one that can raise `IndexError` / `AttributeError`) is modelled with
`Option`.
-/

namespace RevelClinvar

/-- A single dataframe cell: null (`NaN`), a string, or a boolean. -/
inductive Cell where
  | null : Cell
  | str : String → Cell
  | boolean : Bool → Cell
deriving DecidableEq, Repr

/-- Python's `astype('str')` applied to one cell: `str(nan) = 'nan'`,
`str(True) = 'True'`, `str(False) = 'False'`. -/
def pyStr : Cell → String
  | Cell.null => "nan"
  | Cell.str s => s
  | Cell.boolean b => if b then "True" else "False"

/-- `pandas.notna` on one cell: `False` exactly on null. -/
def cellNotna : Cell → Bool
  | Cell.null => false
  | _ => true

/-- Python's `s.split(sep)` for a one-character separator, on character
lists: `splitChar sep [] = [[]]`, and each occurrence of `sep` starts a
new (possibly empty) piece. -/
def splitChar (sep : Char) : List Char → List (List Char)
  | [] => [[]]
  | c :: cs =>
    if c = sep then
      [] :: splitChar sep cs
    else
      match splitChar sep cs with
      | [] => [[c]]
      | p :: ps => (c :: p) :: ps

/-- Python's `sep.join(pieces)` for a one-character separator. -/
def joinChar (sep : Char) : List (List Char) → List Char
  | [] => []
  | p :: ps =>
    match ps with
    | [] => p
    | q :: qs => p ++ sep :: joinChar sep (q :: qs)

/-- `s.split(sep)` at the `String` level. -/
def pySplit (sep : Char) (s : String) : List String :=
  (splitChar sep s.toList).map List.asString

/-- Python dict assignment `d[k] = v`: overwrite in place if the key is
present (keeping its position), otherwise append the new pair. -/
def dictInsert (d : List (String × String)) (k v : String) :
    List (String × String) :=
  if d.any (fun p => p.1 = k) then
    d.map (fun p => if p.1 = k then (k, v) else p)
  else
    d ++ [(k, v)]

/-- Python dict lookup `d.get(k)`. -/
def dictLookup (d : List (String × String)) (k : String) : Option String :=
  (d.find? (fun p => p.1 = k)).map Prod.snd

/-- The loop body of `Clinvar.convert_info_string_to_dict`: for each piece,
`pair.split('=')[0]` is the key and `pair.split('=')[1]` the value; a piece
whose split has fewer than two elements raises `IndexError` (`none`). -/
def infoPairs : List String → List (String × String) →
    Option (List (String × String))
  | [], d => some d
  | piece :: rest, d =>
    match pySplit '=' piece with
    | k :: v :: _ => infoPairs rest (dictInsert d k v)
    | _ => none

/-- `Clinvar.convert_info_string_to_dict`: split the INFO string on `;`
and build a dict from each `key=value` piece. -/
def convert_info_string_to_dict (info_string : String) :
    Option (List (String × String)) :=
  infoPairs (pySplit ';' info_string) []

/-- Re-encoding of a decoded INFO mapping: join each pair with `=` and the
pairs with `;` (the round-trip direction of the spec). -/
def encodeInfoDict (d : List (String × String)) : String :=
  (joinChar ';' (d.map (fun p => p.1.toList ++ '=' :: p.2.toList))).asString

example : convert_info_string_to_dict "A=B=C" = some [("A", "B")] := by decide
example : convert_info_string_to_dict "K1=V1;K2" = none := by decide
example :
    convert_info_string_to_dict "ALLELEID=626482;CLNSIG=Uncertain_significance"
      = some [("ALLELEID", "626482"), ("CLNSIG", "Uncertain_significance")] := by
  decide
example : encodeInfoDict [("A", "B"), ("C", "D")] = "A=B;C=D" := by decide

/-! ## The dataframe model

A pandas `DataFrame` is a list of column names and a list of rows, each
row a list of cells positionally aligned with the columns. -/

structure DataFrame where
  cols : List String
  rows : List (List Cell)
deriving DecidableEq, Repr

/-- A dataframe is well formed when every row has one cell per column. -/
def DataFrame.WF (df : DataFrame) : Prop :=
  ∀ r ∈ df.rows, r.length = df.cols.length

instance (df : DataFrame) : Decidable df.WF :=
  inferInstanceAs (Decidable (∀ r ∈ df.rows, r.length = df.cols.length))

/-- Index of a column label: the first position carrying that name
(pandas label lookup). -/
def colIndex : List String → String → Option Nat
  | [], _ => none
  | c0 :: cs, c => if c0 = c then some 0 else (colIndex cs c).map (· + 1)

/-- The cell of a row under a column label (null when absent). -/
def getCell (cols : List String) (row : List Cell) (c : String) : Cell :=
  match colIndex cols c with
  | some i => row.getD i Cell.null
  | none => Cell.null

/-- Per-row values of one column, `df[c]`. -/
def DataFrame.colValues (df : DataFrame) (c : String) : List Cell :=
  match colIndex df.cols c with
  | some i => df.rows.map (fun r => r.getD i Cell.null)
  | none => []

/-- Column assignment `df[c] = vals`: overwrite the column in place when
the label exists, otherwise append a new column at the end. -/
def DataFrame.setCol (df : DataFrame) (c : String) (vals : List Cell) :
    DataFrame :=
  match colIndex df.cols c with
  | some i =>
    { cols := df.cols,
      rows := (df.rows.zip vals).map (fun rv => rv.1.set i rv.2) }
  | none =>
    { cols := df.cols ++ [c],
      rows := (df.rows.zip vals).map (fun rv => rv.1 ++ [rv.2]) }

/-! ## Column derivations (`src/clinvar.py`) -/

/-- `Clinvar.create_gene_column`: when `GENEINFO` exists, the new `GENE`
column is `df['GENEINFO'].astype('str').apply(lambda x: x.split(':')[0])`. -/
def create_gene_column (df : DataFrame) : DataFrame :=
  if df.cols.contains "GENEINFO" then
    df.setCol "GENE"
      ((df.colValues "GENEINFO").map (fun c =>
        Cell.str ((pySplit ':' (pyStr c)).headI)))
  else df

/-- `Clinvar.create_mol_conseq_column`: when `MC` exists, the new
`MOLECULAR CONSEQUENCE` column maps each value `x` (as a string) to
`x.split('|')[-1]` if `len(x.split('|')) == 2` and `'uncertain'`
otherwise. -/
def create_mol_conseq_column (df : DataFrame) : DataFrame :=
  if df.cols.contains "MC" then
    df.setCol "MOLECULAR CONSEQUENCE"
      ((df.colValues "MC").map (fun c =>
        let parts := pySplit '|' (pyStr c)
        Cell.str (if parts.length = 2 then parts.getLastD "" else "uncertain")))
  else df

/-- `Clinvar.simplify_class_names`: bucket a ClinVar classification name
into `Benign`, `VUS`, `Pathogenic` or `Other` by exact membership in three
fixed lists. -/
def simplify_class_names (clnsig_name : String) : String :=
  let benign_class_names := ["Likely_benign", "Benign", "Benign/Likely_benign"]
  let vus_class_names := ["Uncertain_significance"]
  let pathogenic_class_names :=
    ["Pathogenic", "Likely_pathogenic", "Pathogenic/Likely_pathogenic",
     "risk_factor", "Pathogenic,_risk_factor", "Likely_pathogenic,_risk_factor",
     "Pathogenic/Likely_pathogenic,_risk_factor"]
  if clnsig_name ∈ benign_class_names then "Benign"
  else if clnsig_name ∈ vus_class_names then "VUS"
  else if clnsig_name ∈ pathogenic_class_names then "Pathogenic"
  else "Other"

/-- `Clinvar.create_class_column`: when `CLNSIG` exists, apply
`simplify_class_names` to each cell; a non-string cell (such as null) is
in none of the fixed lists, hence maps to `Other`. -/
def create_class_column (df : DataFrame) : DataFrame :=
  if df.cols.contains "CLNSIG" then
    df.setCol "CLASS"
      ((df.colValues "CLNSIG").map (fun c =>
        Cell.str (match c with
          | Cell.str s => simplify_class_names s
          | _ => "Other")))
  else df

/-- `Clinvar.create_is_conflicting_column`: when `CLNSIGCONF` exists the
new column is `df['CLNSIGCONF'].notna()`; otherwise every row gets the
boolean `False`. -/
def create_is_conflicting_column (df : DataFrame) : DataFrame :=
  if df.cols.contains "CLNSIGCONF" then
    df.setCol "IS_CONFLICTING"
      ((df.colValues "CLNSIGCONF").map (fun c => Cell.boolean (cellNotna c)))
  else
    df.setCol "IS_CONFLICTING" (df.rows.map (fun _ => Cell.boolean false))

/-! ## The VCF meta-information parser (`Clinvar.parse_vcf_meta_info`)

The two `re.search` calls are modelled directly: scan left to right for
the first position where the pattern matches, greedy groups. -/

/-- Python's `line.startswith(pre)`. -/
def pyStartswith (line pre : String) : Bool :=
  pre.toList.isPrefixOf line.toList

/-- Python's `\w` character class (ASCII part). -/
def isWordChar (c : Char) : Bool := c.isAlphanum || c = '_'

/-- Greedy `\w*`: the maximal leading run of word characters. -/
def wordRun : List Char → List Char
  | [] => []
  | c :: cs => if isWordChar c then c :: wordRun cs else []

/-- `re.search('ID=(\\w+)', line)`: first occurrence of `ID=` followed by
at least one word character; the group is the maximal word run. -/
def searchID : List Char → Option (List Char)
  | [] => none
  | c :: cs =>
    match c, cs with
    | 'I', 'D' :: '=' :: d :: rest =>
      if isWordChar d then some (d :: wordRun rest) else searchID cs
    | _, _ => searchID cs

/-- The literal pattern prefix `Description="`. -/
def descPat : List Char := ['D', 'e', 's', 'c', 'r', 'i', 'p', 't', 'i',
  'o', 'n', '=', '"']

/-- Everything before the last `"` of a character list, if any
(the greedy `(.*)"`). -/
def beforeLastQuote (cs : List Char) : Option (List Char) :=
  if cs.contains '"' then
    some (((cs.reverse.dropWhile (fun c => c ≠ '"')).drop 1).reverse)
  else none

/-- `re.search('Description="(.*)"', line)`: first position where the
literal prefix matches and a closing quote follows; group is greedy. -/
def searchDesc : List Char → Option (List Char)
  | [] => none
  | l :: rest =>
    if descPat.isPrefixOf (l :: rest) then
      match beforeLastQuote ((l :: rest).drop 13) with
      | some content => some content
      | none => searchDesc rest
    else searchDesc rest

/-- The loop of `Clinvar.parse_vcf_meta_info`, carrying the meta map and
the `##`-row count; a `##INFO=` line where either `re.search` returns
`None` raises `AttributeError` (`none`). -/
def parseMetaGo : List String → List (String × String) → Nat →
    Option (List (String × String) × Nat)
  | [], meta, n => some (meta, n)
  | line :: rest, meta, n =>
    let n' := if pyStartswith line "##" then n + 1 else n
    if pyStartswith line "##INFO=" then
      match searchID line.toList, searchDesc line.toList with
      | some k, some d =>
        parseMetaGo rest (dictInsert meta k.asString d.asString) n'
      | _, _ => none
    else parseMetaGo rest meta n'

/-- `Clinvar.parse_vcf_meta_info` over the lines of the file. -/
def parse_vcf_meta_info (lines : List String) :
    Option (List (String × String) × Nat) :=
  parseMetaGo lines [] 0

example :
    parse_vcf_meta_info
      ["##fileformat=VCFv4.1",
       "##INFO=<ID=ALLELEID,Number=1,Type=Integer,Description=\"the ClinVar Allele ID\">"]
      = some ([("ALLELEID", "the ClinVar Allele ID")], 2) := by decide
example : parse_vcf_meta_info ["##INFO=<foo>"] = none := by decide

/-! ## The table assembler (`src/create_master_table.py`) -/

/-- Key agreement between a left and a right row under paired key
columns, as in `pandas.merge(left_on, right_on)`. -/
def keysMatch (lcols : List String) (lrow : List Cell) (rcols : List String)
    (rrow : List Cell) (lkeys rkeys : List String) : Bool :=
  (lkeys.zip rkeys).all (fun kk =>
    decide (getCell lcols lrow kk.1 = getCell rcols rrow kk.2))

/-- `left.merge(right, how='inner', left_on=lkeys, right_on=rkeys)` for
tables with disjoint column names: every pair of key-matching rows,
left-row order first. -/
def innerMerge (l r : DataFrame) (lkeys rkeys : List String) : DataFrame :=
  { cols := l.cols ++ r.cols,
    rows := l.rows.flatMap (fun lr =>
      (r.rows.filter (fun rr =>
        keysMatch l.cols lr r.cols rr lkeys rkeys)).map (fun rr => lr ++ rr)) }

/-- `left.merge(right, how='left', ...)`: key-matching pairs, and a
null-padded row for every left row without a match. -/
def leftMerge (l r : DataFrame) (lkeys rkeys : List String) : DataFrame :=
  { cols := l.cols ++ r.cols,
    rows := l.rows.flatMap (fun lr =>
      if (r.rows.filter (fun rr =>
            keysMatch l.cols lr r.cols rr lkeys rkeys)).isEmpty then
        [lr ++ List.replicate r.cols.length Cell.null]
      else
        (r.rows.filter (fun rr =>
          keysMatch l.cols lr r.cols rr lkeys rkeys)).map
            (fun rr => lr ++ rr)) }

/-- `Series.isin(vals)` on one cell: false on null and booleans. -/
def cellIn : Cell → List String → Bool
  | Cell.str s, vs => vs.contains s
  | _, _ => false

/-- `df[df[c].isin(vals)]`. -/
def filterIsin (df : DataFrame) (c : String) (vals : List String) :
    DataFrame :=
  { cols := df.cols,
    rows := df.rows.filter (fun r => cellIn (getCell df.cols r c) vals) }

/-- Drop the cells of a row sitting under any of the named columns. -/
def dropRowCells (cols : List String) (r : List Cell) (cs : List String) :
    List Cell :=
  ((cols.zip r).filter (fun p => !cs.contains p.1)).map Prod.snd

/-- `df.drop(cs, axis=1)`. -/
def dropColumns (df : DataFrame) (cs : List String) : DataFrame :=
  { cols := df.cols.filter (fun c => !cs.contains c),
    rows := df.rows.map (fun r => dropRowCells df.cols r cs) }

/-- The six join-key columns dropped at the end of
`create_master_table.py`. -/
def masterDroppedCols : List String :=
  ["CHROM", "POS", "REF", "ALT", "#Gene Symbol", "grch38_pos"]

/-- The pipeline of `create_master_table.py`: inner-join REVEL to ClinVar
on `(chr, hg19_pos, ref, alt) = (CHROM, POS, REF, ALT)`, left-join the
dosage table on `GENE = '#Gene Symbol'`, keep rows whose `GENE` is in the
ACMG-59 allow-list, then drop the join-key columns. -/
def master_df (revel clinvar dosage : DataFrame)
    (acmg59_genes : List String) : DataFrame :=
  dropColumns
    (filterIsin
      (leftMerge
        (innerMerge revel clinvar
          ["chr", "hg19_pos", "ref", "alt"] ["CHROM", "POS", "REF", "ALT"])
        dosage ["GENE"] ["#Gene Symbol"])
      "GENE" acmg59_genes)
    masterDroppedCols

/-! ## Basic lemmas about splitting and joining -/

theorem splitChar_ne_nil (sep : Char) (l : List Char) :
    splitChar sep l ≠ [] := by
  induction l with
  | nil => simp [splitChar]
  | cons c cs ih =>
    rw [splitChar]
    split
    · simp
    · cases h : splitChar sep cs with
      | nil => simp
      | cons p ps => simp

theorem splitChar_of_not_mem {sep : Char} {l : List Char} (h : sep ∉ l) :
    splitChar sep l = [l] := by
  induction l with
  | nil => rfl
  | cons c cs ih =>
    simp only [List.mem_cons, not_or] at h
    rw [splitChar, if_neg (fun hc => h.1 (hc.symm)), ih h.2]

theorem splitChar_append {sep : Char} {a : List Char} (b : List Char)
    (ha : sep ∉ a) : splitChar sep (a ++ sep :: b) = a :: splitChar sep b := by
  induction a with
  | nil => simp [splitChar]
  | cons c a' ih =>
    simp only [List.mem_cons, not_or] at ha
    rw [List.cons_append, splitChar, if_neg (fun hc => ha.1 hc.symm),
      ih ha.2]

theorem splitChar_length (sep : Char) (l : List Char) :
    (splitChar sep l).length = l.count sep + 1 := by
  induction l with
  | nil => simp [splitChar]
  | cons c cs ih =>
    rw [splitChar]
    by_cases hc : c = sep
    · simp [hc, List.count_cons, ih]
    · rw [if_neg hc]
      cases h : splitChar sep cs with
      | nil => exact absurd h (splitChar_ne_nil sep cs)
      | cons p ps =>
        rw [h] at ih
        simp only [List.length_cons] at ih ⊢
        rw [List.count_cons, if_neg (by simpa using hc)]
        omega

theorem splitChar_pair {sep : Char} {k v : List Char} (hk : sep ∉ k)
    (hv : sep ∉ v) : splitChar sep (k ++ sep :: v) = [k, v] := by
  rw [splitChar_append v hk, splitChar_of_not_mem hv]

theorem splitChar_joinChar {sep : Char} :
    ∀ {ps : List (List Char)}, ps ≠ [] → (∀ p ∈ ps, sep ∉ p) →
      splitChar sep (joinChar sep ps) = ps
  | [], h, _ => absurd rfl h
  | [p], _, hall => by
    show splitChar sep p = [p]
    exact splitChar_of_not_mem (hall p (by simp))
  | p :: q :: qs, _, hall => by
    show splitChar sep (p ++ sep :: joinChar sep (q :: qs)) = _
    rw [splitChar_append _ (hall p (by simp)),
      splitChar_joinChar (by simp) (fun x hx => hall x (by simp [hx]))]

/-! ## Basic lemmas about the dataframe model -/

theorem colIndex_isSome (cols : List String) (c : String) :
    (colIndex cols c).isSome = cols.contains c := by
  induction cols with
  | nil => simp [colIndex]
  | cons c0 cs ih =>
    rw [colIndex]
    by_cases h : c0 = c
    · simp [h]
    · rw [if_neg h]
      have hne : (c == c0) = false := by
        simp only [beq_eq_false_iff_ne, ne_eq]
        exact fun hc => h hc.symm
      rw [List.contains_cons, hne, Bool.false_or, ← ih]
      cases colIndex cs c <;> simp

theorem colIndex_lt {cols : List String} {c : String} {i : Nat}
    (h : colIndex cols c = some i) : i < cols.length := by
  induction cols generalizing i with
  | nil => simp [colIndex] at h
  | cons c0 cs ih =>
    rw [colIndex] at h
    by_cases hc : c0 = c
    · rw [if_pos hc] at h
      cases h
      simp
    · rw [if_neg hc] at h
      cases hj : colIndex cs c with
      | none => rw [hj] at h; simp at h
      | some j =>
        rw [hj] at h
        simp only [Option.map_some'] at h
        cases h
        have := ih hj
        simp
        omega

theorem colIndex_append_of_none {cols : List String} {c : String}
    (h : colIndex cols c = none) (more : List String) :
    colIndex (cols ++ more) c = (colIndex more c).map (· + cols.length) := by
  induction cols with
  | nil => simp [colIndex, Option.map_id']
  | cons c0 cs ih =>
    rw [colIndex] at h
    by_cases hc : c0 = c
    · rw [if_pos hc] at h; cases h
    · rw [if_neg hc] at h
      simp only [Option.map_eq_none'] at h
      rw [List.cons_append, colIndex, if_neg hc, ih h]
      cases colIndex more c with
      | none => simp
      | some j => simp; omega

theorem getD_set_self : ∀ (r : List Cell) (i : Nat) (v d : Cell),
    i < r.length → (r.set i v).getD i d = v
  | [], i, _, _, h => by simp at h
  | _ :: _, 0, v, d, _ => rfl
  | _ :: cs, i + 1, v, d, h =>
    getD_set_self cs i v d (by simpa using h)

theorem getD_append_length : ∀ (r : List Cell) (v d : Cell),
    (r ++ [v]).getD r.length d = v
  | [], _, _ => rfl
  | _ :: cs, v, d => getD_append_length cs v d

theorem zip_map_eq_self {α β : Type} (f : α → β → β) :
    ∀ (xs : List α) (ys : List β), xs.length = ys.length →
      (∀ x ∈ xs, ∀ y, f x y = y) →
      (xs.zip ys).map (fun p => f p.1 p.2) = ys
  | [], [], _, _ => rfl
  | [], _ :: _, h, _ => by simp at h
  | _ :: _, [], h, _ => by simp at h
  | x :: xs, y :: ys, h, hf => by
    simp only [List.zip_cons_cons, List.map_cons]
    rw [hf x (by simp) y,
      zip_map_eq_self f xs ys (by simpa using h)
        (fun a ha b => hf a (by simp [ha]) b)]

/-- After `df[c] = vals` (with one value per row), reading column `c`
back gives exactly `vals`. -/
theorem colValues_setCol (df : DataFrame) (c : String) (vals : List Cell)
    (hWF : df.WF) (hlen : vals.length = df.rows.length) :
    (df.setCol c vals).colValues c = vals := by
  unfold DataFrame.setCol
  cases h : colIndex df.cols c with
  | some i =>
    unfold DataFrame.colValues
    simp only [h]
    rw [List.map_map]
    exact zip_map_eq_self _ df.rows vals (by omega)
      (fun r hr v => getD_set_self r i v Cell.null
        (by rw [hWF r hr]; exact colIndex_lt h))
  | none =>
    unfold DataFrame.colValues
    simp only
    rw [colIndex_append_of_none h [c]]
    have hc : colIndex [c] c = some 0 := by simp [colIndex]
    rw [hc]
    simp only [Option.map_some', Nat.zero_add, List.map_map]
    exact zip_map_eq_self _ df.rows vals (by omega)
      (fun r hr v => by
        have hlr := hWF r hr
        show (r ++ [v]).getD df.cols.length Cell.null = v
        rw [← hlr]
        exact getD_append_length r v Cell.null)

/-! ## Lemmas about the annotation-string decoder -/

theorem toList_append (a b : String) :
    (a ++ b).toList = a.toList ++ b.toList :=
  String.data_append a b

theorem splitChar_pieces_not_mem {sep : Char} :
    ∀ {l : List Char}, ∀ q ∈ splitChar sep l, sep ∉ q := by
  intro l
  induction l with
  | nil => intro q hq; simp [splitChar] at hq; simp [hq]
  | cons c cs ih =>
    intro q hq
    rw [splitChar] at hq
    by_cases hc : c = sep
    · rw [if_pos hc] at hq
      rcases List.mem_cons.mp hq with rfl | hq
      · simp
      · exact ih q hq
    · rw [if_neg hc] at hq
      cases h : splitChar sep cs with
      | nil => exact absurd h (splitChar_ne_nil sep cs)
      | cons p ps =>
        rw [h] at hq
        rcases List.mem_cons.mp hq with rfl | hq
        · intro hmem
          rcases List.mem_cons.mp hmem with rfl | hmem
          · exact hc rfl
          · exact ih p (by simp [h]) hmem
        · exact ih q (by simp [h, hq])

theorem splitChar_pieces_subset {sep : Char} :
    ∀ {l : List Char}, ∀ q ∈ splitChar sep l, ∀ c ∈ q, c ∈ l := by
  intro l
  induction l with
  | nil => intro q hq; simp [splitChar] at hq; simp [hq]
  | cons c0 cs ih =>
    intro q hq c hcq
    rw [splitChar] at hq
    by_cases hc : c0 = sep
    · rw [if_pos hc] at hq
      rcases List.mem_cons.mp hq with rfl | hq
      · simp at hcq
      · exact List.mem_cons_of_mem _ (ih q hq c hcq)
    · rw [if_neg hc] at hq
      cases h : splitChar sep cs with
      | nil => exact absurd h (splitChar_ne_nil sep cs)
      | cons p ps =>
        rw [h] at hq
        rcases List.mem_cons.mp hq with rfl | hq
        · rcases List.mem_cons.mp hcq with rfl | hcq
          · simp
          · exact List.mem_cons_of_mem _ (ih p (by simp [h]) c hcq)
        · exact List.mem_cons_of_mem _ (ih q (by simp [h, hq]) c hcq)

/-- Splitting a list that ends in a separator-free suffix after a
separator yields that suffix as the final piece. -/
theorem splitChar_ends {sep : Char} {kl : List Char} (hkl : sep ∉ kl) :
    ∀ (a : List Char), ∃ ps, splitChar sep (a ++ sep :: kl) = ps ++ [kl] := by
  intro a
  induction a with
  | nil =>
    refine ⟨[[]], ?_⟩
    show splitChar sep ([] ++ sep :: kl) = [[], kl]
    rw [List.nil_append, splitChar, if_pos rfl, splitChar_of_not_mem hkl]
  | cons c a' ih =>
    obtain ⟨ps', hps'⟩ := ih
    by_cases hc : c = sep
    · exact ⟨[] :: ps', by
        rw [List.cons_append, splitChar, if_pos hc, hps']; rfl⟩
    · have hlen : (splitChar sep (a' ++ sep :: kl)).length =
          (a' ++ sep :: kl).count sep + 1 := splitChar_length sep _
      have hcount : 1 ≤ (a' ++ sep :: kl).count sep := by
        rw [List.count_append, List.count_cons, if_pos (by simp)]
        omega
      cases hps0 : ps' with
      | nil =>
        rw [hps0] at hps'
        rw [hps'] at hlen
        simp only [List.nil_append, List.length_cons, List.length_nil] at hlen
        omega
      | cons p0 ps0 =>
        refine ⟨(c :: p0) :: ps0, ?_⟩
        rw [List.cons_append, splitChar, if_neg hc, hps', hps0]
        rfl

/-- `infoPairs` over an appended piece list is the monadic composition. -/
theorem infoPairs_append (ps qs : List String) (d : List (String × String)) :
    infoPairs (ps ++ qs) d = (infoPairs ps d).bind (fun d' => infoPairs qs d') := by
  induction ps generalizing d with
  | nil => simp [infoPairs]
  | cons p ps' ih =>
    rw [List.cons_append, infoPairs, infoPairs]
    cases pySplit '=' p with
    | nil => rfl
    | cons k rest =>
      cases rest with
      | nil => rfl
      | cons v _ => exact ih (dictInsert d k v)

/-- A piece with no `=` at all makes `infoPairs` fail. -/
theorem infoPairs_bare_key {k : String} (hk : '=' ∉ k.toList)
    (d : List (String × String)) : infoPairs [k] d = none := by
  rw [infoPairs]
  have : pySplit '=' k = [k.toList.asString] := by
    unfold pySplit
    rw [splitChar_of_not_mem hk]
    rfl
  rw [this]

/-- Claim C1: the decoder does not keep the remainder after the first `=`: on
the piece `A=B=C`, the key `A` is mapped to `B` (the segment between the
first and second `=`), not to `B=C`. -/
theorem decoder_first_equals_counterexample :
    convert_info_string_to_dict "A=B=C" = some [("A", "B")] ∧
      dictLookup [("A", "B")] "A" ≠ some "B=C" := by
  constructor
  · decide
  · decide

/-- Claim C1, amended: a piece of the form `k=v=w` maps `k` to `v` only: the
decoder splits the piece on every `=` and keeps element 1 of the split,
dropping everything from the second `=` on. -/
theorem decoder_keeps_second_segment (k v w : String)
    (hk1 : '=' ∉ k.toList) (hk2 : ';' ∉ k.toList)
    (hv1 : '=' ∉ v.toList) (hv2 : ';' ∉ v.toList) (hw : ';' ∉ w.toList) :
    convert_info_string_to_dict (k ++ "=" ++ v ++ "=" ++ w) = some [(k, v)] := by
  have hs : (k ++ "=" ++ v ++ "=" ++ w).toList =
      k.toList ++ '=' :: (v.toList ++ '=' :: w.toList) := by
    simp only [toList_append, List.append_assoc]
    rfl
  have hsemi : ';' ∉ (k ++ "=" ++ v ++ "=" ++ w).toList := by
    rw [hs]
    intro hmem
    rcases List.mem_append.mp hmem with h | h
    · exact hk2 h
    · rcases List.mem_cons.mp h with h | h
      · exact absurd h (by decide)
      · rcases List.mem_append.mp h with h | h
        · exact hv2 h
        · rcases List.mem_cons.mp h with h | h
          · exact absurd h (by decide)
          · exact hw h
  have hparts : pySplit '=' (k ++ "=" ++ v ++ "=" ++ w) =
      k :: v :: (splitChar '=' w.toList).map List.asString := by
    unfold pySplit
    rw [hs, splitChar_append _ hk1, splitChar_append _ hv1]
    simp only [List.map_cons, String.asString_toList]
  unfold convert_info_string_to_dict pySplit
  rw [splitChar_of_not_mem hsemi]
  simp only [List.map_cons, List.map_nil, String.asString_toList]
  rw [infoPairs, hparts]
  rfl

/-- Claim C2: on a packed string whose final piece is a bare key with no `=`,
the decoder raises `IndexError` (modelled as `none`) instead of
succeeding. -/
theorem decoder_bare_key_counterexample :
    convert_info_string_to_dict "K1=V1;K2" = none := by decide

/-- Claim C2, amended: a packed annotation string whose final `;`-piece
contains no `=` makes `convert_info_string_to_dict` raise `IndexError`
(`pair.split('=')[1]` is out of bounds); no mapping is returned. -/
theorem decoder_bare_key_fails (s k : String)
    (hk1 : '=' ∉ k.toList) (hk2 : ';' ∉ k.toList) :
    convert_info_string_to_dict (s ++ ";" ++ k) = none := by
  unfold convert_info_string_to_dict
  have hs : (s ++ ";" ++ k).toList = s.toList ++ ';' :: k.toList := by
    simp only [toList_append, List.append_assoc]
    rfl
  obtain ⟨ps, hps⟩ := splitChar_ends hk2 s.toList
  unfold pySplit
  rw [hs, hps]
  simp only [List.map_append, List.map_cons, List.map_nil,
    String.asString_toList]
  rw [infoPairs_append]
  cases h : infoPairs (ps.map List.asString) [] with
  | none => rfl
  | some d' => exact infoPairs_bare_key hk1 d'

/-- Claim C5: `simplify_class_names` is total with exactly the four buckets of
the source lists, by exact string matching. -/
theorem simplify_class_names_buckets (s : String) :
    (simplify_class_names s = "Benign" ↔
      s = "Likely_benign" ∨ s = "Benign" ∨ s = "Benign/Likely_benign") ∧
    (simplify_class_names s = "VUS" ↔ s = "Uncertain_significance") ∧
    (simplify_class_names s = "Pathogenic" ↔
      (s = "Pathogenic" ∨ s = "Likely_pathogenic" ∨
       s = "Pathogenic/Likely_pathogenic" ∨ s = "risk_factor" ∨
       s = "Pathogenic,_risk_factor" ∨ s = "Likely_pathogenic,_risk_factor" ∨
       s = "Pathogenic/Likely_pathogenic,_risk_factor")) ∧
    (simplify_class_names s = "Other" ↔
      ¬(s = "Likely_benign" ∨ s = "Benign" ∨ s = "Benign/Likely_benign" ∨
        s = "Uncertain_significance" ∨
        s = "Pathogenic" ∨ s = "Likely_pathogenic" ∨
        s = "Pathogenic/Likely_pathogenic" ∨ s = "risk_factor" ∨
        s = "Pathogenic,_risk_factor" ∨ s = "Likely_pathogenic,_risk_factor" ∨
        s = "Pathogenic/Likely_pathogenic,_risk_factor")) := by
  rcases Decidable.em (s = "Likely_benign") with rfl | h1
  · decide
  rcases Decidable.em (s = "Benign") with rfl | h2
  · decide
  rcases Decidable.em (s = "Benign/Likely_benign") with rfl | h3
  · decide
  rcases Decidable.em (s = "Uncertain_significance") with rfl | h4
  · decide
  rcases Decidable.em (s = "Pathogenic") with rfl | h5
  · decide
  rcases Decidable.em (s = "Likely_pathogenic") with rfl | h6
  · decide
  rcases Decidable.em (s = "Pathogenic/Likely_pathogenic") with rfl | h7
  · decide
  rcases Decidable.em (s = "risk_factor") with rfl | h8
  · decide
  rcases Decidable.em (s = "Pathogenic,_risk_factor") with rfl | h9
  · decide
  rcases Decidable.em (s = "Likely_pathogenic,_risk_factor") with rfl | h10
  · decide
  rcases Decidable.em (s = "Pathogenic/Likely_pathogenic,_risk_factor")
    with rfl | h11
  · decide
  have hs : simplify_class_names s = "Other" := by
    unfold simplify_class_names
    rw [if_neg (by simp [h1, h2, h3]), if_neg (by simp [h4]),
      if_neg (by simp [h5, h6, h7, h8, h9, h10, h11])]
  rw [hs]
  refine ⟨⟨fun h => absurd h (by decide), fun h => ?_⟩,
    ⟨fun h => absurd h (by decide), fun h => absurd h h4⟩,
    ⟨fun h => absurd h (by decide), fun h => ?_⟩,
    ⟨fun _ => ?_, fun _ => rfl⟩⟩
  · rcases h with h | h | h
    · exact absurd h h1
    · exact absurd h h2
    · exact absurd h h3
  · rcases h with h | h | h | h | h | h | h
    · exact absurd h h5
    · exact absurd h h6
    · exact absurd h h7
    · exact absurd h h8
    · exact absurd h h9
    · exact absurd h h10
    · exact absurd h h11
  · rintro (h | h | h | h | h | h | h | h | h | h | h)
    · exact h1 h
    · exact h2 h
    · exact h3 h
    · exact h4 h
    · exact h5 h
    · exact h6 h
    · exact h7 h
    · exact h8 h
    · exact h9 h
    · exact h10 h
    · exact h11 h

/-- Claim C9: each conditional derivation is a strict no-op when its source
column is absent: the table comes back entirely unchanged. -/
theorem missing_source_column_noop (df : DataFrame) :
    (df.cols.contains "GENEINFO" = false → create_gene_column df = df) ∧
    (df.cols.contains "MC" = false → create_mol_conseq_column df = df) ∧
    (df.cols.contains "CLNSIG" = false → create_class_column df = df) := by
  refine ⟨fun h1 => ?_, fun h2 => ?_, fun h3 => ?_⟩
  · unfold create_gene_column
    rw [h1]
    rfl
  · unfold create_mol_conseq_column
    rw [h2]
    rfl
  · unfold create_class_column
    rw [h3]
    rfl

/-- Witness for `missing_source_column_noop` on a one-column table. -/
theorem missing_source_column_noop_witness :
    create_gene_column ⟨["POS"], [[Cell.str "1"]]⟩ = ⟨["POS"], [[Cell.str "1"]]⟩ ∧
    create_mol_conseq_column ⟨["POS"], [[Cell.str "1"]]⟩ =
      ⟨["POS"], [[Cell.str "1"]]⟩ ∧
    create_class_column ⟨["POS"], [[Cell.str "1"]]⟩ =
      ⟨["POS"], [[Cell.str "1"]]⟩ :=
  ⟨(missing_source_column_noop _).1 (by decide),
   (missing_source_column_noop _).2.1 (by decide),
   (missing_source_column_noop _).2.2 (by decide)⟩

/-! ## Lemmas for the derivation stage -/

theorem colValues_length (df : DataFrame) {c : String}
    (h : df.cols.contains c = true) :
    (df.colValues c).length = df.rows.length := by
  unfold DataFrame.colValues
  cases hc : colIndex df.cols c with
  | none =>
    have := colIndex_isSome df.cols c
    rw [hc, h] at this
    simp at this
  | some i => simp

/-- Deriving a new column from a present source column and reading it
back gives the mapped source values. -/
theorem colValues_setCol_map (df : DataFrame) (src dst : String)
    (f : Cell → Cell) (hWF : df.WF) (hsrc : df.cols.contains src = true) :
    (df.setCol dst ((df.colValues src).map f)).colValues dst =
      (df.colValues src).map f :=
  colValues_setCol df dst _ hWF
    (by rw [List.length_map, colValues_length df hsrc])

theorem getD_map_lt {α β : Type} (f : α → β) :
    ∀ (l : List α) (i : Nat), i < l.length → ∀ (d : α) (d' : β),
      (l.map f).getD i d' = f (l.getD i d)
  | [], i, hi => by simp at hi
  | x :: xs, 0, _ => fun d d' => rfl
  | x :: xs, i + 1, hi => fun d d' =>
    getD_map_lt f xs i (by simpa using hi) d d'

theorem getD_lt_of_ne_default {α : Type} {l : List α} {i : Nat} {d : α}
    (h : l.getD i d ≠ d) : i < l.length := by
  by_contra hge
  exact h (List.getD_eq_default l d (by omega))

theorem cellNotna_eq_true (c : Cell) : cellNotna c = true ↔ c ≠ Cell.null := by
  cases c <;> simp [cellNotna]

/-- When a list of characters contains the separator exactly once, the
split is the two separator-free sides. -/
theorem count_one_split {sep : Char} :
    ∀ {l : List Char}, l.count sep = 1 →
      splitChar sep l =
        [l.takeWhile (· ≠ sep), (l.dropWhile (· ≠ sep)).drop 1] := by
  intro l
  induction l with
  | nil => intro h; simp at h
  | cons c cs ih =>
    intro h
    rw [List.count_cons] at h
    by_cases hc : c = sep
    · subst hc
      rw [if_pos (by simp)] at h
      have hzero : cs.count c = 0 := by omega
      have hnot : c ∉ cs := List.count_eq_zero.mp hzero
      rw [splitChar, if_pos rfl, splitChar_of_not_mem hnot]
      simp [List.takeWhile, List.dropWhile]
    · rw [if_neg (by simpa using fun hsc => hc hsc)] at h
      rw [splitChar, if_neg hc, ih h]
      have hpred : (fun x => decide (x ≠ sep)) c = true := by
        simp [hc]
      simp [List.takeWhile, List.dropWhile, hpred, hc]

/-- Claim C10: with `GENEINFO` present, a row whose `GENEINFO` cell is null
gets `GENE` equal to the literal string `nan` (the stringification of
the null), not null. -/
theorem gene_of_null_is_nan_string (df : DataFrame) (hWF : df.WF)
    (h : df.cols.contains "GENEINFO" = true) (i : Nat)
    (hnull : (df.colValues "GENEINFO").getD i (Cell.str "?") = Cell.null) :
    ((create_gene_column df).colValues "GENE").getD i Cell.null
      = Cell.str "nan" := by
  have hi : i < (df.colValues "GENEINFO").length :=
    getD_lt_of_ne_default (by rw [hnull]; simp)
  unfold create_gene_column
  rw [h, if_pos rfl,
    colValues_setCol_map df "GENEINFO" "GENE" _ hWF h,
    getD_map_lt _ _ i hi (Cell.str "?") Cell.null, hnull]
  rfl

/-- Claim C4: after `create_mol_conseq_column` on a table with an `MC` column,
a value with exactly one `|` yields the text right of the `|`, and a
value with any other number of `|`s (none, or more than one) yields the
literal `uncertain`. -/
theorem mol_conseq_cases (df : DataFrame) (hWF : df.WF)
    (h : df.cols.contains "MC" = true) (i : Nat) (hi : i < df.rows.length)
    (v : String) (hv : v = pyStr ((df.colValues "MC").getD i Cell.null)) :
    (v.toList.count '|' = 1 →
      ((create_mol_conseq_column df).colValues
          "MOLECULAR CONSEQUENCE").getD i Cell.null
        = Cell.str ((v.toList.dropWhile (· ≠ '|')).drop 1).asString) ∧
    (v.toList.count '|' ≠ 1 →
      ((create_mol_conseq_column df).colValues
          "MOLECULAR CONSEQUENCE").getD i Cell.null
        = Cell.str "uncertain") := by
  have hi' : i < (df.colValues "MC").length := by
    rw [colValues_length df h]; exact hi
  have hout :
      ((create_mol_conseq_column df).colValues
        "MOLECULAR CONSEQUENCE").getD i Cell.null
      = Cell.str (if (pySplit '|' v).length = 2
          then (pySplit '|' v).getLastD "" else "uncertain") := by
    unfold create_mol_conseq_column
    rw [h, if_pos rfl,
      colValues_setCol_map df "MC" "MOLECULAR CONSEQUENCE" _ hWF h,
      getD_map_lt _ _ i hi' Cell.null Cell.null, hv]
  have hlen : (pySplit '|' v).length = v.toList.count '|' + 1 := by
    unfold pySplit
    rw [List.length_map]
    exact splitChar_length '|' v.toList
  constructor
  · intro hcount
    rw [hout, if_pos (by omega)]
    unfold pySplit
    rw [count_one_split hcount]
    rfl
  · intro hcount
    rw [hout, if_neg (by omega)]

/-- Claim C6: `IS_CONFLICTING` is all-false (boolean, not null) when
`CLNSIGCONF` is absent, and otherwise true on a row exactly when that
row's `CLNSIGCONF` is non-null. -/
theorem is_conflicting_spec (df : DataFrame) (hWF : df.WF) :
    (df.cols.contains "CLNSIGCONF" = false →
      (create_is_conflicting_column df).colValues "IS_CONFLICTING" =
        List.replicate df.rows.length (Cell.boolean false)) ∧
    (df.cols.contains "CLNSIGCONF" = true → ∀ i, i < df.rows.length →
      (((create_is_conflicting_column df).colValues
          "IS_CONFLICTING").getD i Cell.null = Cell.boolean true ↔
        (df.colValues "CLNSIGCONF").getD i Cell.null ≠ Cell.null)) := by
  constructor
  · intro habs
    unfold create_is_conflicting_column
    rw [habs]
    simp only [Bool.false_eq_true, if_false]
    rw [colValues_setCol df "IS_CONFLICTING" _ hWF (by simp)]
    rw [List.map_const']
  · intro hpres i hi
    have hi' : i < (df.colValues "CLNSIGCONF").length := by
      rw [colValues_length df hpres]; exact hi
    unfold create_is_conflicting_column
    rw [hpres, if_pos rfl,
      colValues_setCol_map df "CLNSIGCONF" "IS_CONFLICTING" _ hWF hpres,
      getD_map_lt _ _ i hi' Cell.null Cell.null]
    rw [← cellNotna_eq_true]
    constructor
    · intro hb
      cases hn : cellNotna ((df.colValues "CLNSIGCONF").getD i Cell.null) with
      | false => rw [hn] at hb; exact absurd hb (by decide)
      | true => rfl
    · intro hb
      rw [hb]

/-! ## Witness instantiations -/

/-- Witness for `decoder_keeps_second_segment` at `A=B=C`. -/
theorem decoder_keeps_second_segment_witness :
    ('=' ∉ "A".toList) ∧ (';' ∉ "A".toList) ∧ ('=' ∉ "B".toList) ∧
      (';' ∉ "B".toList) ∧ (';' ∉ "C".toList) ∧
      convert_info_string_to_dict ("A" ++ "=" ++ "B" ++ "=" ++ "C")
        = some [("A", "B")] :=
  ⟨by decide, by decide, by decide, by decide, by decide,
    decoder_keeps_second_segment "A" "B" "C"
      (by decide) (by decide) (by decide) (by decide) (by decide)⟩

/-- Witness for `decoder_bare_key_fails` at `K1=V1;K2`. -/
theorem decoder_bare_key_fails_witness :
    ('=' ∉ "K2".toList) ∧ (';' ∉ "K2".toList) ∧
      convert_info_string_to_dict ("K1=V1" ++ ";" ++ "K2") = none :=
  ⟨by decide, by decide,
    decoder_bare_key_fails "K1=V1" "K2" (by decide) (by decide)⟩

/-- Witness for `gene_of_null_is_nan_string` on a one-row table with a
null `GENEINFO` cell. -/
theorem gene_of_null_is_nan_string_witness :
    ((create_gene_column ⟨["GENEINFO"], [[Cell.null]]⟩).colValues
        "GENE").getD 0 Cell.null = Cell.str "nan" :=
  gene_of_null_is_nan_string ⟨["GENEINFO"], [[Cell.null]]⟩
    (by decide) (by decide) 0 (by decide)

/-- Witness for `mol_conseq_cases` on the two examples of the spec. -/
theorem mol_conseq_cases_witness :
    ((create_mol_conseq_column
        ⟨["MC"], [[Cell.str "SO:0001583|missense_variant"]]⟩).colValues
          "MOLECULAR CONSEQUENCE").getD 0 Cell.null
      = Cell.str "missense_variant" ∧
    ((create_mol_conseq_column
        ⟨["MC"], [[Cell.str
          "SO:0001819|synonymous_variant,SO:0001623|5_prime_UTR_variant"]]⟩).colValues
          "MOLECULAR CONSEQUENCE").getD 0 Cell.null
      = Cell.str "uncertain" := by
  constructor
  · have h := mol_conseq_cases
      ⟨["MC"], [[Cell.str "SO:0001583|missense_variant"]]⟩
      (by decide) (by decide) 0 (by decide)
      "SO:0001583|missense_variant" (by decide)
    rw [h.1 (by decide)]
    rfl
  · have h := mol_conseq_cases
      ⟨["MC"], [[Cell.str
        "SO:0001819|synonymous_variant,SO:0001623|5_prime_UTR_variant"]]⟩
      (by decide) (by decide) 0 (by decide)
      "SO:0001819|synonymous_variant,SO:0001623|5_prime_UTR_variant"
      (by decide)
    exact h.2 (by decide)

/-- Witness for `is_conflicting_spec`: absent indicator on one table,
present non-null indicator on another. -/
theorem is_conflicting_spec_witness :
    (create_is_conflicting_column ⟨["POS"], [[Cell.str "7"]]⟩).colValues
        "IS_CONFLICTING" = List.replicate 1 (Cell.boolean false) ∧
    (((create_is_conflicting_column
        ⟨["CLNSIGCONF"], [[Cell.str "Pathogenic(1)"]]⟩).colValues
          "IS_CONFLICTING").getD 0 Cell.null = Cell.boolean true ↔
      ((⟨["CLNSIGCONF"], [[Cell.str "Pathogenic(1)"]]⟩ : DataFrame).colValues
          "CLNSIGCONF").getD 0 Cell.null ≠ Cell.null) :=
  ⟨(is_conflicting_spec ⟨["POS"], [[Cell.str "7"]]⟩ (by decide)).1 (by decide),
   (is_conflicting_spec ⟨["CLNSIGCONF"], [[Cell.str "Pathogenic(1)"]]⟩
      (by decide)).2 (by decide) 0 (by decide)⟩

/-! ## The meta-information parser: error behaviour -/

theorem pyStartswith_hash_of_info {l : String}
    (h : pyStartswith l "##INFO=" = true) : pyStartswith l "##" = true := by
  unfold pyStartswith at h ⊢
  rw [ List.isPrefixOf_iff_prefix] at h ⊢
  exact List.IsPrefix.trans (by decide) h

theorem parseMetaGo_eq_none :
    ∀ (lines : List String) (meta : List (String × String)) (n0 : Nat),
      parseMetaGo lines meta n0 = none ↔
        ∃ l ∈ lines, pyStartswith l "##INFO=" = true ∧
          (searchID l.toList = none ∨ searchDesc l.toList = none)
  | [], meta, n0 => by simp [parseMetaGo]
  | line :: rest, meta, n0 => by
    simp only [parseMetaGo]
    by_cases hinfo : pyStartswith line "##INFO=" = true
    · rw [if_pos hinfo]
      cases hid : searchID line.toList with
      | none =>
        simp only [true_iff]
        exact ⟨line, by simp, hinfo, Or.inl hid⟩
      | some k =>
        cases hdesc : searchDesc line.toList with
        | none =>
          simp only [true_iff]
          exact ⟨line, by simp, hinfo, Or.inr hdesc⟩
        | some d =>
          rw [parseMetaGo_eq_none rest _ _]
          constructor
          · rintro ⟨l, hl, hp, hbad⟩
            exact ⟨l, by simp [hl], hp, hbad⟩
          · rintro ⟨l, hl, hp, hbad⟩
            rcases List.mem_cons.mp hl with rfl | hl'
            · rcases hbad with hbad | hbad
              · rw [hid] at hbad; cases hbad
              · rw [hdesc] at hbad; cases hbad
            · exact ⟨l, hl', hp, hbad⟩
    · rw [if_neg hinfo]
      rw [parseMetaGo_eq_none rest _ _]
      constructor
      · rintro ⟨l, hl, hp, hbad⟩
        exact ⟨l, by simp [hl], hp, hbad⟩
      · rintro ⟨l, hl, hp, hbad⟩
        rcases List.mem_cons.mp hl with rfl | hl'
        · exact absurd hp hinfo
        · exact ⟨l, hl', hp, hbad⟩

theorem parseMetaGo_count :
    ∀ (lines : List String) (meta : List (String × String)) (n0 : Nat)
      (m : List (String × String)) (n : Nat),
      parseMetaGo lines meta n0 = some (m, n) →
      n = n0 + (lines.filter (fun l => pyStartswith l "##")).length
  | [], meta, n0, m, n => by
    simp only [parseMetaGo, Option.some_inj, List.filter_nil,
      List.length_nil]
    intro h
    cases h
    omega
  | line :: rest, meta, n0, m, n => by
    simp only [parseMetaGo]
    by_cases hinfo : pyStartswith line "##INFO=" = true
    · rw [if_pos hinfo]
      have hhash : pyStartswith line "##" = true :=
        pyStartswith_hash_of_info hinfo
      rw [if_pos hhash]
      cases hid : searchID line.toList with
      | none => intro h; cases h
      | some k =>
        cases hdesc : searchDesc line.toList with
        | none => intro h; cases h
        | some d =>
          intro h
          have hrec := parseMetaGo_count rest _ _ _ _ h
          rw [List.filter_cons, if_pos (by simp [hhash]), List.length_cons]
          omega
    · rw [if_neg hinfo]
      intro h
      have := parseMetaGo_count rest _ _ _ _ h
      by_cases hhash : pyStartswith line "##" = true
      · rw [if_pos hhash] at this
        rw [List.filter_cons, if_pos (by simp [hhash]), List.length_cons]
        omega
      · rw [if_neg hhash] at this
        rw [List.filter_cons,
          if_neg (by simpa using hhash)]
        omega

/-- Claim C3: the parser is not silent on a malformed `##INFO=` line: on
`##INFO=<foo>` (no `ID=` word, no `Description="..."`), `re.search(...)`
returns `None` and `.group(1)` raises `AttributeError`, modelled as
`none`. -/
theorem parse_meta_counterexample :
    parse_vcf_meta_info ["##INFO=<foo>"] = none ∧
      pyStartswith "##INFO=<foo>" "##INFO=" = true := by
  exact ⟨by decide, by decide⟩

/-- Claim C3, amended: `parse_vcf_meta_info` raises an error exactly when some
line starts with `##INFO=` but matches the `ID=\w+` pattern or the
`Description="..."` pattern nowhere; on success, the returned meta-row
count is the number of lines starting with `##`. -/
theorem parse_meta_malformed_raises (lines : List String) :
    (parse_vcf_meta_info lines = none ↔
      ∃ l ∈ lines, pyStartswith l "##INFO=" = true ∧
        (searchID l.toList = none ∨ searchDesc l.toList = none)) ∧
    (∀ m n, parse_vcf_meta_info lines = some (m, n) →
      n = (lines.filter (fun l => pyStartswith l "##")).length) := by
  constructor
  · exact parseMetaGo_eq_none lines [] 0
  · intro m n h
    have := parseMetaGo_count lines [] 0 m n h
    omega

/-- Witness for `parse_meta_malformed_raises` on a two-line well-formed
header. -/
theorem parse_meta_malformed_raises_witness :
    2 = (["##a=b", "##INFO=<ID=X,Description=\"d\">"].filter
      (fun l => pyStartswith l "##")).length :=
  (parse_meta_malformed_raises
      ["##a=b", "##INFO=<ID=X,Description=\"d\">"]).2
    [("X", "d")] 2 (by decide)

/-! ## The decode/encode round trip -/

/-- A packed annotation string is valid when every `;`-piece has exactly
one `=` (one key, one value). -/
def ValidInfoString (s : String) : Prop :=
  ∀ p ∈ splitChar ';' s.toList, (splitChar '=' p).length = 2

instance (s : String) : Decidable (ValidInfoString s) :=
  inferInstanceAs
    (Decidable (∀ p ∈ splitChar ';' s.toList, (splitChar '=' p).length = 2))

/-- Invariant of decoded mappings: keys are distinct, and keys and values
contain neither `=` nor `;`. -/
def InvDict (d : List (String × String)) : Prop :=
  (d.map Prod.fst).Nodup ∧
  ∀ p ∈ d, '=' ∉ p.1.toList ∧ ';' ∉ p.1.toList ∧
    '=' ∉ p.2.toList ∧ ';' ∉ p.2.toList

theorem dictInsert_ne_nil (d : List (String × String)) (k v : String) :
    dictInsert d k v ≠ [] := by
  unfold dictInsert
  by_cases h : d.any (fun p => p.1 = k) = true
  · rw [if_pos h]
    cases d with
    | nil => simp at h
    | cons q qs => simp
  · rw [if_neg h]
    simp

theorem dictInsert_inv {d : List (String × String)} {k v : String}
    (hd : InvDict d) (hk1 : '=' ∉ k.toList) (hk2 : ';' ∉ k.toList)
    (hv1 : '=' ∉ v.toList) (hv2 : ';' ∉ v.toList) :
    InvDict (dictInsert d k v) := by
  obtain ⟨hnodup, hmem⟩ := hd
  unfold dictInsert
  by_cases h : d.any (fun p => p.1 = k) = true
  · rw [if_pos h]
    constructor
    · have hfst : (d.map (fun p => if p.1 = k then (k, v) else p)).map
          Prod.fst = d.map Prod.fst := by
        rw [List.map_map]
        apply List.map_congr_left
        intro p _
        by_cases hp : p.1 = k
        · simp [hp]
        · simp [hp]
      rw [hfst]
      exact hnodup
    · intro q hq
      rw [List.mem_map] at hq
      obtain ⟨p, hp, hpq⟩ := hq
      by_cases hpk : p.1 = k
      · rw [if_pos hpk] at hpq
        rw [← hpq]
        exact ⟨hk1, hk2, hv1, hv2⟩
      · rw [if_neg hpk] at hpq
        rw [← hpq]
        exact hmem p hp
  · rw [if_neg h]
    constructor
    · rw [List.map_append, List.map_cons, List.map_nil]
      rw [List.nodup_append]
      refine ⟨hnodup, by simp, ?_⟩
      intro x hx
      simp only [List.mem_singleton]
      rw [List.mem_map] at hx
      obtain ⟨p, hp, hpx⟩ := hx
      intro hxk
      rw [hxk] at hpx
      have : d.any (fun p => p.1 = k) = true :=
        List.any_eq_true.mpr ⟨p, hp, by simp [hpx]⟩
      exact h this
    · intro q hq
      rcases List.mem_append.mp hq with hq | hq
      · exact hmem q hq
      · rw [List.mem_singleton] at hq
        rw [hq]
        exact ⟨hk1, hk2, hv1, hv2⟩

/-- Decoding a list of valid pieces succeeds and preserves the dict
invariant; the result is nonempty as soon as the accumulator or the
piece list is. -/
theorem infoPairs_sound :
    ∀ (pieces : List String) (acc : List (String × String)),
      (∀ p ∈ pieces, ';' ∉ p.toList ∧ (splitChar '=' p.toList).length = 2) →
      InvDict acc →
      ∃ d', infoPairs pieces acc = some d' ∧ InvDict d' ∧
        ((acc ≠ [] ∨ pieces ≠ []) → d' ≠ [])
  | [], acc, _, hacc => ⟨acc, rfl, hacc, fun h => by
      rcases h with h | h
      · exact h
      · exact absurd rfl h⟩
  | p :: ps, acc, hp, hacc => by
    obtain ⟨hpsemi, hplen⟩ := hp p (by simp)
    have hsplit : ∃ kl vl, splitChar '=' p.toList = [kl, vl] := by
      cases h : splitChar '=' p.toList with
      | nil => rw [h] at hplen; simp at hplen
      | cons a t =>
        cases t with
        | nil => rw [h] at hplen; simp at hplen
        | cons b t' =>
          cases t' with
          | nil => exact ⟨a, b, rfl⟩
          | cons c t'' => rw [h] at hplen; simp at hplen
    obtain ⟨kl, vl, hkv⟩ := hsplit
    have hkmem : kl ∈ splitChar '=' p.toList := by rw [hkv]; simp
    have hvmem : vl ∈ splitChar '=' p.toList := by rw [hkv]; simp
    have hk1 : '=' ∉ kl := splitChar_pieces_not_mem kl hkmem
    have hv1 : '=' ∉ vl := splitChar_pieces_not_mem vl hvmem
    have hk2 : ';' ∉ kl := fun hc =>
      hpsemi (splitChar_pieces_subset kl hkmem ';' hc)
    have hv2 : ';' ∉ vl := fun hc =>
      hpsemi (splitChar_pieces_subset vl hvmem ';' hc)
    have hacc' : InvDict (dictInsert acc kl.asString vl.asString) :=
      dictInsert_inv hacc
        (by rw [List.toList_asString]; exact hk1)
        (by rw [List.toList_asString]; exact hk2)
        (by rw [List.toList_asString]; exact hv1)
        (by rw [List.toList_asString]; exact hv2)
    obtain ⟨d', hd', hinv', hne'⟩ :=
      infoPairs_sound ps (dictInsert acc kl.asString vl.asString)
        (fun q hq => hp q (by simp [hq])) hacc'
    refine ⟨d', ?_, hinv', fun _ =>
      hne' (Or.inl (dictInsert_ne_nil acc kl.asString vl.asString))⟩
    rw [infoPairs]
    have hparts : pySplit '=' p = [kl.asString, vl.asString] := by
      unfold pySplit
      rw [hkv]
      rfl
    rw [hparts]
    exact hd'

/-- Re-decoding an encoded dict with fresh, distinct keys appends its
pairs to the accumulator in order. -/
theorem infoPairs_encoded :
    ∀ (d acc : List (String × String)),
      (∀ p ∈ d, '=' ∉ p.1.toList ∧ '=' ∉ p.2.toList) →
      (d.map Prod.fst).Nodup →
      (∀ p ∈ d, ∀ q ∈ acc, ¬ q.1 = p.1) →
      infoPairs
        (d.map (fun p => (p.1.toList ++ '=' :: p.2.toList).asString)) acc
        = some (acc ++ d)
  | [], acc, _, _, _ => by simp [infoPairs]
  | (k, v) :: d, acc, hfree, hnodup, hfresh => by
    obtain ⟨hk1, hv1⟩ := hfree (k, v) (by simp)
    rw [List.map_cons, infoPairs]
    have hparts : pySplit '=' ((k.toList ++ '=' :: v.toList).asString)
        = [k, v] := by
      unfold pySplit
      rw [List.toList_asString, splitChar_pair hk1 hv1]
      simp only [List.map_cons, List.map_nil, List.cons.injEq, and_true]
      exact ⟨String.asString_toList k, String.asString_toList v⟩
    rw [hparts]
    have hins : dictInsert acc k v = acc ++ [(k, v)] := by
      unfold dictInsert
      rw [if_neg ?hno]
      case hno =>
        simp only [List.any_eq_true, not_exists, not_and]
        intro q hq
        simpa using hfresh (k, v) (by simp) q hq
    show infoPairs
        (d.map (fun p => (p.1.toList ++ '=' :: p.2.toList).asString))
        (dictInsert acc k v) = some (acc ++ (k, v) :: d)
    rw [hins]
    rw [infoPairs_encoded d (acc ++ [(k, v)])
      (fun p hp => hfree p (by simp [hp]))
      (by simpa using (List.nodup_cons.mp (by simpa using hnodup)).2)
      ?fresh]
    · rw [List.append_assoc]
      rfl
    case fresh =>
      intro p hp q hq
      rcases List.mem_append.mp hq with hq | hq
      · exact hfresh p (by simp [hp]) q hq
      · rw [List.mem_singleton] at hq
        rw [hq]
        intro hkp
        have hknotin : k ∉ d.map Prod.fst :=
          (List.nodup_cons.mp (by simpa using hnodup)).1
        exact hknotin (by
          rw [List.mem_map]
          exact ⟨p, hp, hkp.symm⟩)

/-- Claim C8: decoding a valid packed annotation string and re-encoding the
mapping (join pairs with `=`, pieces with `;`) yields a string that
decodes to the very same mapping. -/
theorem decode_encode_roundtrip (s : String) (hvalid : ValidInfoString s) :
    ∃ d, convert_info_string_to_dict s = some d ∧
      convert_info_string_to_dict (encodeInfoDict d) = some d := by
  have hcond : ∀ p ∈ pySplit ';' s,
      ';' ∉ p.toList ∧ (splitChar '=' p.toList).length = 2 := by
    intro p hp
    unfold pySplit at hp
    rw [List.mem_map] at hp
    obtain ⟨q, hq, rfl⟩ := hp
    rw [List.toList_asString]
    exact ⟨splitChar_pieces_not_mem q hq, hvalid q hq⟩
  obtain ⟨d, hd, hinv, hne⟩ :=
    infoPairs_sound (pySplit ';' s) [] hcond ⟨by simp, by simp⟩
  have hpieces_ne : pySplit ';' s ≠ [] := by
    unfold pySplit
    intro hc
    rw [List.map_eq_nil_iff] at hc
    exact splitChar_ne_nil ';' s.toList hc
  have hdnil : d ≠ [] := hne (Or.inr hpieces_ne)
  obtain ⟨hnodup, hmem⟩ := hinv
  have henc : convert_info_string_to_dict (encodeInfoDict d)
      = some ([] ++ d) := by
    unfold convert_info_string_to_dict encodeInfoDict pySplit
    rw [List.toList_asString]
    rw [splitChar_joinChar ?ne ?free]
    case ne => simpa using hdnil
    case free =>
      intro piece hpiece
      rw [List.mem_map] at hpiece
      obtain ⟨p, hp, rfl⟩ := hpiece
      obtain ⟨_, hk2, _, hv2⟩ := hmem p hp
      intro hc
      rcases List.mem_append.mp hc with hc | hc
      · exact hk2 hc
      · rcases List.mem_cons.mp hc with hc | hc
        · exact absurd hc (by decide)
        · exact hv2 hc
    rw [List.map_map]
    exact infoPairs_encoded d []
      (fun p hp => ⟨(hmem p hp).1, (hmem p hp).2.2.1⟩) hnodup (by simp)
  exact ⟨d, hd, by simpa using henc⟩

/-- Witness for `decode_encode_roundtrip` on a two-key INFO string. -/
theorem decode_encode_roundtrip_witness :
    ∃ d, convert_info_string_to_dict
        "ALLELEID=626482;CLNSIG=Uncertain_significance" = some d ∧
      convert_info_string_to_dict (encodeInfoDict d) = some d :=
  decode_encode_roundtrip "ALLELEID=626482;CLNSIG=Uncertain_significance"
    (by decide)

/-! ## Lemmas for the table assembler -/

theorem colIndex_append_of_some {A : List String} {c : String} {i : Nat}
    (h : colIndex A c = some i) (B : List String) :
    colIndex (A ++ B) c = some i := by
  induction A generalizing i with
  | nil => simp [colIndex] at h
  | cons a A' ih =>
    rw [colIndex] at h
    rw [List.cons_append, colIndex]
    by_cases ha : a = c
    · rw [if_pos ha] at h ⊢
      exact h
    · rw [if_neg ha] at h ⊢
      cases hj : colIndex A' c with
      | none => rw [hj] at h; simp at h
      | some j =>
        rw [hj] at h
        simp only [Option.map_some'] at h
        rw [ih hj]
        exact h

theorem getD_append_lt {ra : List Cell} :
    ∀ {i : Nat}, i < ra.length → ∀ (rb : List Cell) (d : Cell),
      (ra ++ rb).getD i d = ra.getD i d := by
  induction ra with
  | nil => intro i hi; simp at hi
  | cons x xs ih =>
    intro i hi rb d
    cases i with
    | zero => rfl
    | succ j => exact ih (by simpa using hi) rb d

theorem getD_append_add (ra : List Cell) :
    ∀ (rb : List Cell) (j : Nat) (d : Cell),
      (ra ++ rb).getD (j + ra.length) d = rb.getD j d := by
  induction ra with
  | nil => intro rb j d; simp
  | cons x xs ih =>
    intro rb j d
    rw [List.length_cons, List.cons_append]
    have : j + (xs.length + 1) = (j + xs.length) + 1 := by omega
    rw [this]
    exact ih rb j d

theorem getCell_append_none {A : List String} {ra : List Cell} {c : String}
    (hA : colIndex A c = none) (hlen : ra.length = A.length)
    (B : List String) (rb : List Cell) :
    getCell (A ++ B) (ra ++ rb) c = getCell B rb c := by
  unfold getCell
  rw [colIndex_append_of_none hA B]
  cases hj : colIndex B c with
  | none => simp
  | some j =>
    simp only [Option.map_some']
    rw [← hlen, getD_append_add]

theorem getCell_append_some {A : List String} {ra : List Cell} {c : String}
    {i : Nat} (hA : colIndex A c = some i) (hlen : ra.length = A.length)
    (B : List String) (rb : List Cell) :
    getCell (A ++ B) (ra ++ rb) c = getCell A ra c := by
  unfold getCell
  rw [colIndex_append_of_some hA B, hA]
  exact getD_append_lt (by rw [hlen]; exact colIndex_lt hA) rb Cell.null

theorem mem_innerMerge {l r : DataFrame} {lk rk : List String}
    {t : List Cell} :
    t ∈ (innerMerge l r lk rk).rows ↔
      ∃ lr ∈ l.rows, ∃ rr ∈ r.rows,
        keysMatch l.cols lr r.cols rr lk rk = true ∧ t = lr ++ rr := by
  unfold innerMerge
  simp only [List.mem_flatMap, List.mem_map, List.mem_filter]
  constructor
  · rintro ⟨lr, hlr, rr, ⟨hrr, hmatch⟩, rfl⟩
    exact ⟨lr, hlr, rr, hrr, hmatch, rfl⟩
  · rintro ⟨lr, hlr, rr, hrr, hmatch, rfl⟩
    exact ⟨lr, hlr, rr, ⟨hrr, hmatch⟩, rfl⟩

theorem mem_leftMerge {l r : DataFrame} {lk rk : List String}
    {t : List Cell} :
    t ∈ (leftMerge l r lk rk).rows ↔
      ∃ lr ∈ l.rows,
        ((∃ rr ∈ r.rows,
            keysMatch l.cols lr r.cols rr lk rk = true ∧ t = lr ++ rr) ∨
         ((∀ rr ∈ r.rows,
             keysMatch l.cols lr r.cols rr lk rk = false) ∧
          t = lr ++ List.replicate r.cols.length Cell.null)) := by
  unfold leftMerge
  simp only [List.mem_flatMap]
  constructor
  · rintro ⟨lr, hlr, ht⟩
    refine ⟨lr, hlr, ?_⟩
    by_cases he : (r.rows.filter (fun rr =>
        keysMatch l.cols lr r.cols rr lk rk)).isEmpty
    · rw [if_pos he] at ht
      rw [List.mem_singleton] at ht
      refine Or.inr ⟨?_, ht⟩
      intro rr hrr
      have hnil := List.isEmpty_iff.mp he
      by_contra hmatch
      have : rr ∈ r.rows.filter (fun rr =>
          keysMatch l.cols lr r.cols rr lk rk) :=
        List.mem_filter.mpr ⟨hrr, by
          cases hb : keysMatch l.cols lr r.cols rr lk rk with
          | false => exact absurd hb hmatch
          | true => rfl⟩
      rw [hnil] at this
      cases this
    · rw [if_neg he] at ht
      rw [List.mem_map] at ht
      obtain ⟨rr, hrr, rfl⟩ := ht
      obtain ⟨hrr', hmatch⟩ := List.mem_filter.mp hrr
      exact Or.inl ⟨rr, hrr', hmatch, rfl⟩
  · rintro ⟨lr, hlr, hcase⟩
    refine ⟨lr, hlr, ?_⟩
    rcases hcase with ⟨rr, hrr, hmatch, rfl⟩ | ⟨hall, rfl⟩
    · have hne : ¬ (r.rows.filter (fun rr =>
          keysMatch l.cols lr r.cols rr lk rk)).isEmpty = true := by
        intro he
        have hnil := List.isEmpty_iff.mp he
        have : rr ∈ r.rows.filter (fun rr =>
            keysMatch l.cols lr r.cols rr lk rk) :=
          List.mem_filter.mpr ⟨hrr, hmatch⟩
        rw [hnil] at this
        cases this
      rw [if_neg hne, List.mem_map]
      exact ⟨rr, List.mem_filter.mpr ⟨hrr, hmatch⟩, rfl⟩
    · have he : (r.rows.filter (fun rr =>
          keysMatch l.cols lr r.cols rr lk rk)).isEmpty = true := by
        rw [List.isEmpty_iff]
        rw [List.filter_eq_nil_iff]
        intro rr hrr
        rw [hall rr hrr]
        simp
      rw [if_pos he]
      simp

/-- Claim C7: the assembler inner-joins REVEL to ClinVar on the four keys
(dropping unmatched rows on either side), left-joins dosage on
`GENE = '#Gene Symbol'` (null-padding unmatched rows), keeps exactly the
rows whose `GENE` is in the allow-list, and drops the six join-key
columns. -/
theorem master_table_assembly
    (revel clinvar dosage : DataFrame) (genes : List String)
    (hRW : revel.WF) (hCW : clinvar.WF)
    (hGC : clinvar.cols.contains "GENE" = true)
    (hGR : revel.cols.contains "GENE" = false) :
    (master_df revel clinvar dosage genes).cols
        = ((revel.cols ++ clinvar.cols) ++ dosage.cols).filter
            (fun c => !(masterDroppedCols.contains c)) ∧
    ∀ t, t ∈ (master_df revel clinvar dosage genes).rows ↔
      ∃ lr ∈ revel.rows, ∃ cr ∈ clinvar.rows,
        getCell revel.cols lr "chr" = getCell clinvar.cols cr "CHROM" ∧
        getCell revel.cols lr "hg19_pos" = getCell clinvar.cols cr "POS" ∧
        getCell revel.cols lr "ref" = getCell clinvar.cols cr "REF" ∧
        getCell revel.cols lr "alt" = getCell clinvar.cols cr "ALT" ∧
        cellIn (getCell clinvar.cols cr "GENE") genes = true ∧
        ((∃ dr ∈ dosage.rows,
            getCell clinvar.cols cr "GENE"
              = getCell dosage.cols dr "#Gene Symbol" ∧
            t = dropRowCells ((revel.cols ++ clinvar.cols) ++ dosage.cols)
                  ((lr ++ cr) ++ dr) masterDroppedCols) ∨
         ((∀ dr ∈ dosage.rows,
             ¬ getCell clinvar.cols cr "GENE"
                 = getCell dosage.cols dr "#Gene Symbol") ∧
          t = dropRowCells ((revel.cols ++ clinvar.cols) ++ dosage.cols)
                ((lr ++ cr) ++
                  List.replicate dosage.cols.length Cell.null)
                masterDroppedCols)) := by
  have hGRnone : colIndex revel.cols "GENE" = none := by
    have hiso := colIndex_isSome revel.cols "GENE"
    rw [hGR] at hiso
    cases h : colIndex revel.cols "GENE" with
    | none => rfl
    | some i => rw [h] at hiso; simp at hiso
  have hGCsome : ∃ i, colIndex clinvar.cols "GENE" = some i := by
    have hiso := colIndex_isSome clinvar.cols "GENE"
    rw [hGC] at hiso
    exact Option.isSome_iff_exists.mp hiso
  have hkg : ∀ lr ∈ revel.rows, ∀ (cr : List Cell) (dr : List Cell),
      keysMatch (revel.cols ++ clinvar.cols) (lr ++ cr) dosage.cols dr
          ["GENE"] ["#Gene Symbol"] = true ↔
        getCell clinvar.cols cr "GENE"
          = getCell dosage.cols dr "#Gene Symbol" := by
    intro lr hlr cr dr
    unfold keysMatch
    simp [getCell_append_none hGRnone (hRW lr hlr) clinvar.cols cr]
  have hgc : ∀ lr ∈ revel.rows, ∀ cr ∈ clinvar.rows, ∀ (X : List Cell),
      getCell ((revel.cols ++ clinvar.cols) ++ dosage.cols)
          ((lr ++ cr) ++ X) "GENE" = getCell clinvar.cols cr "GENE" := by
    intro lr hlr cr hcr X
    obtain ⟨i, hi⟩ := hGCsome
    have hM1 : colIndex (revel.cols ++ clinvar.cols) "GENE"
        = some (i + revel.cols.length) := by
      rw [colIndex_append_of_none hGRnone clinvar.cols, hi]
      rfl
    rw [getCell_append_some hM1
        (by simp [hRW lr hlr, hCW cr hcr]) dosage.cols X,
      getCell_append_none hGRnone (hRW lr hlr) clinvar.cols cr]
  have hk4 : ∀ (lr cr : List Cell),
      keysMatch revel.cols lr clinvar.cols cr
          ["chr", "hg19_pos", "ref", "alt"]
          ["CHROM", "POS", "REF", "ALT"] = true ↔
        (getCell revel.cols lr "chr" = getCell clinvar.cols cr "CHROM" ∧
         getCell revel.cols lr "hg19_pos" = getCell clinvar.cols cr "POS" ∧
         getCell revel.cols lr "ref" = getCell clinvar.cols cr "REF" ∧
         getCell revel.cols lr "alt" = getCell clinvar.cols cr "ALT") := by
    intro lr cr
    unfold keysMatch
    simp
  refine ⟨rfl, fun t => ?_⟩
  show t ∈ ((leftMerge
      (innerMerge revel clinvar ["chr", "hg19_pos", "ref", "alt"]
        ["CHROM", "POS", "REF", "ALT"])
      dosage ["GENE"] ["#Gene Symbol"]).rows.filter
        (fun u => cellIn
          (getCell ((revel.cols ++ clinvar.cols) ++ dosage.cols) u "GENE")
          genes)).map
      (fun u => dropRowCells ((revel.cols ++ clinvar.cols) ++ dosage.cols)
        u masterDroppedCols) ↔ _
  rw [List.mem_map]
  constructor
  · rintro ⟨u, hu, rfl⟩
    obtain ⟨huM2, hgene⟩ := List.mem_filter.mp hu
    rw [mem_leftMerge] at huM2
    obtain ⟨m, hm, hcase⟩ := huM2
    rw [mem_innerMerge] at hm
    obtain ⟨lr, hlr, cr, hcr, hmatch, rfl⟩ := hm
    obtain ⟨h1, h2, h3, h4⟩ := (hk4 lr cr).mp hmatch
    rcases hcase with ⟨dr, hdr, hdmatch, rfl⟩ | ⟨hall, rfl⟩
    · refine ⟨lr, hlr, cr, hcr, h1, h2, h3, h4, ?_, Or.inl
        ⟨dr, hdr, (hkg lr hlr cr dr).mp hdmatch, rfl⟩⟩
      rw [← hgc lr hlr cr hcr dr]
      exact hgene
    · refine ⟨lr, hlr, cr, hcr, h1, h2, h3, h4, ?_, Or.inr ⟨?_, rfl⟩⟩
      · rw [← hgc lr hlr cr hcr
          (List.replicate dosage.cols.length Cell.null)]
        exact hgene
      · intro dr hdr heq
        have hfalse : keysMatch (revel.cols ++ clinvar.cols) (lr ++ cr)
            dosage.cols dr ["GENE"] ["#Gene Symbol"] = false := hall dr hdr
        rw [(hkg lr hlr cr dr).mpr heq] at hfalse
        exact absurd hfalse (by decide)
  · rintro ⟨lr, hlr, cr, hcr, h1, h2, h3, h4, hgene, hcase⟩
    rcases hcase with ⟨dr, hdr, hdeq, rfl⟩ | ⟨hall, rfl⟩
    · refine ⟨(lr ++ cr) ++ dr, List.mem_filter.mpr ⟨?_, ?_⟩, rfl⟩
      · rw [mem_leftMerge]
        refine ⟨lr ++ cr, ?_, Or.inl ⟨dr, hdr,
          (hkg lr hlr cr dr).mpr hdeq, rfl⟩⟩
        rw [mem_innerMerge]
        exact ⟨lr, hlr, cr, hcr, (hk4 lr cr).mpr ⟨h1, h2, h3, h4⟩, rfl⟩
      · rw [hgc lr hlr cr hcr dr]
        exact hgene
    · refine ⟨(lr ++ cr) ++ List.replicate dosage.cols.length Cell.null,
        List.mem_filter.mpr ⟨?_, ?_⟩, rfl⟩
      · rw [mem_leftMerge]
        refine ⟨lr ++ cr, ?_, Or.inr ⟨?_, rfl⟩⟩
        · rw [mem_innerMerge]
          exact ⟨lr, hlr, cr, hcr, (hk4 lr cr).mpr ⟨h1, h2, h3, h4⟩, rfl⟩
        · intro rr hrr
          cases hb : keysMatch (revel.cols ++ clinvar.cols) (lr ++ cr)
              dosage.cols rr ["GENE"] ["#Gene Symbol"] with
          | false => exact hb
          | true => exact absurd ((hkg lr hlr cr rr).mp hb) (hall rr hrr)
      · rw [hgc lr hlr cr hcr
          (List.replicate dosage.cols.length Cell.null)]
        exact hgene

/-- A one-row effect-score table for exercising the assembler. -/
def revelW : DataFrame :=
  ⟨["chr", "hg19_pos", "grch38_pos", "ref", "alt", "REVEL"],
   [[Cell.str "1", Cell.str "100", Cell.str "200", Cell.str "A",
     Cell.str "G", Cell.str "0.9"]]⟩

/-- A one-row variant-call table for exercising the assembler. -/
def clinvarW : DataFrame :=
  ⟨["CHROM", "POS", "REF", "ALT", "GENE"],
   [[Cell.str "1", Cell.str "100", Cell.str "A", Cell.str "G",
     Cell.str "BRCA1"]]⟩

/-- A one-row dosage table for exercising the assembler. -/
def dosageW : DataFrame :=
  ⟨["#Gene Symbol", "Haploinsufficiency Score"],
   [[Cell.str "BRCA1", Cell.str "3"]]⟩

/-- Witness for `master_table_assembly` on one-row tables. -/
theorem master_table_assembly_witness :
    revelW.WF ∧ clinvarW.WF ∧
    clinvarW.cols.contains "GENE" = true ∧
    revelW.cols.contains "GENE" = false ∧
    ((master_df revelW clinvarW dosageW ["BRCA1"]).cols
        = ((revelW.cols ++ clinvarW.cols) ++ dosageW.cols).filter
            (fun c => !(masterDroppedCols.contains c)) ∧
      ∀ t, t ∈ (master_df revelW clinvarW dosageW ["BRCA1"]).rows ↔
        ∃ lr ∈ revelW.rows, ∃ cr ∈ clinvarW.rows,
          getCell revelW.cols lr "chr" = getCell clinvarW.cols cr "CHROM" ∧
          getCell revelW.cols lr "hg19_pos"
            = getCell clinvarW.cols cr "POS" ∧
          getCell revelW.cols lr "ref" = getCell clinvarW.cols cr "REF" ∧
          getCell revelW.cols lr "alt" = getCell clinvarW.cols cr "ALT" ∧
          cellIn (getCell clinvarW.cols cr "GENE") ["BRCA1"] = true ∧
          ((∃ dr ∈ dosageW.rows,
              getCell clinvarW.cols cr "GENE"
                = getCell dosageW.cols dr "#Gene Symbol" ∧
              t = dropRowCells
                    ((revelW.cols ++ clinvarW.cols) ++ dosageW.cols)
                    ((lr ++ cr) ++ dr) masterDroppedCols) ∨
           ((∀ dr ∈ dosageW.rows,
               ¬ getCell clinvarW.cols cr "GENE"
                   = getCell dosageW.cols dr "#Gene Symbol") ∧
            t = dropRowCells
                  ((revelW.cols ++ clinvarW.cols) ++ dosageW.cols)
                  ((lr ++ cr) ++
                    List.replicate dosageW.cols.length Cell.null)
                  masterDroppedCols))) :=
  ⟨by decide, by decide, by decide, by decide,
    master_table_assembly revelW clinvarW dosageW ["BRCA1"]
      (by decide) (by decide) (by decide) (by decide)⟩

end RevelClinvar
